import Mathlib

/-!
Verification of the mdbase language server against its specification.

The development shallowly embeds the text-processing core of the server:
strings are modelled as lists of characters (`Str`), mirroring how the
source iterates over `chars()`.  Case folding and whitespace tests follow
the ASCII behaviour of the source's `eq_ignore_ascii_case` and of the
whitespace characters that occur in practice.  Column arithmetic counts
characters where the source counts bytes; the two agree on ASCII input.
-/

namespace MdZ

abbrev Str := List Char

/-- Whitespace predicate used by the embedded `trim` family
(ASCII subset of the source's Unicode whitespace). -/
def wsChar (c : Char) : Bool := c.isWhitespace

/-- Embeds Rust `str::trim_start`. -/
def trimStart (s : Str) : Str := s.dropWhile wsChar

/-- Embeds Rust `str::trim_end`. -/
def trimEnd (s : Str) : Str := (s.reverse.dropWhile wsChar).reverse

/-- Embeds Rust `str::trim`. -/
def trim (s : Str) : Str := trimEnd (trimStart s)

/-- Split a character list at every occurrence of `c`. -/
def splitChar (c : Char) : Str → List Str
  | [] => [[]]
  | x :: xs =>
    let r := splitChar c xs
    if x = c then [] :: r
    else
      match r with
      | h :: t => (x :: h) :: t
      | [] => [[x]]

/-- Join with a single separator character (inverse of `splitChar`). -/
def joinChar (c : Char) (parts : List Str) : Str := List.intercalate [c] parts

/-- Strip one trailing carriage return, as Rust `str::lines` does per line. -/
def stripCr (l : Str) : Str := if l.getLast? = some '\r' then l.dropLast else l

/-- Embeds Rust `str::lines`: split on newline, with the final trailing
newline not producing an extra empty line, and per-line `\r` stripping. -/
def rustLines (s : Str) : List Str :=
  if s = [] then []
  else
    let parts := splitChar '\n' s
    let parts := if s.getLast? = some '\n' then parts.dropLast else parts
    parts.map stripCr

/-- Search loop of `frontmatter_bounds` (src/text.rs): first line index `≥ idx`
whose `trim_end` equals `---`. -/
def findCloseDelim : List Str → Nat → Option Nat
  | [], _ => none
  | l :: rest, idx =>
    if trimEnd l = "---".toList then some idx else findCloseDelim rest (idx + 1)

/-- Embeds `frontmatter_bounds` (src/text.rs, lines 46-64).  The first line
must satisfy `trim_end() == "---"`; the closing delimiter is the first later
line with the same property; empty or unterminated frontmatter gives `none`. -/
def frontmatter_bounds (text : Str) : Option (Nat × Nat) :=
  match rustLines text with
  | [] => none
  | first :: rest =>
    if trimEnd first ≠ "---".toList then none
    else
      match findCloseDelim rest 1 with
      | none => none
      | some c => if c ≤ 1 then none else some (1, c - 1)

/-- The frontmatter-bounds rule exactly as the claim words it, reading
"trimmed" as full (leading and trailing) trimming of the delimiter lines. -/
def claimBoundsFullTrim (text : Str) : Option (Nat × Nat) :=
  match rustLines text with
  | [] => none
  | first :: rest =>
    if trim first ≠ "---".toList then none
    else
      match rest.findIdx? (fun l => trim l = "---".toList) with
      | none => none
      | some j => if j + 1 ≤ 1 then none else some (0 + 1, (j + 1) - 1)

/-- The claim's bounds rule amended to the source's trailing-only trimming:
`start = first_delim + 1`, `end = close_delim - 1`, `none` when
`close_delim ≤ first_delim + 1`. -/
def specBoundsTrailing (text : Str) : Option (Nat × Nat) :=
  match rustLines text with
  | [] => none
  | first :: rest =>
    if trimEnd first ≠ "---".toList then none
    else
      match rest.findIdx? (fun l => trimEnd l = "---".toList) with
      | none => none
      | some j => if j + 1 ≤ 1 then none else some (0 + 1, (j + 1) - 1)

example : frontmatter_bounds "---\na: 1\n---\nbody".toList = some (1, 1) := by decide
example : frontmatter_bounds " ---\nx\n---".toList = none := by decide
example : claimBoundsFullTrim " ---\nx\n---".toList = some (1, 1) := by decide
example : frontmatter_bounds "---\n---\nx".toList = none := by decide
example : frontmatter_bounds "---\nx".toList = none := by decide
example : frontmatter_bounds "--- \na: 1\n--- \nbody".toList = some (1, 1) := by decide

theorem findCloseDelim_eq (ls : List Str) (i : Nat) :
    findCloseDelim ls i = ls.findIdx? (fun l => trimEnd l = "---".toList) i := by
  induction ls generalizing i with
  | nil => rfl
  | cons l rest ih =>
    rw [show findCloseDelim (l :: rest) i
          = if trimEnd l = "---".toList then some i else findCloseDelim rest (i + 1) from rfl,
      List.findIdx?_cons]
    by_cases h : trimEnd l = "---".toList
    · rw [if_pos h, if_pos (by simpa using h)]
    · rw [if_neg h, if_neg (by simpa using h), ih (i + 1)]

theorem trimStart_of_trimEnd_dash (l : Str) (h : trimEnd l = "---".toList) :
    trimStart l = l := by
  obtain ⟨t, ht⟩ := List.dropWhile_suffix (l := l.reverse) wsChar
  have hl : l = trimEnd l ++ t.reverse := by
    have h2 := congrArg List.reverse ht
    simpa [trimEnd, List.reverse_append] using h2.symm
  rw [h] at hl
  rw [hl]
  simp [trimStart, List.dropWhile_cons, wsChar]

theorem trim_of_trimEnd_dash (l : Str) (h : trimEnd l = "---".toList) :
    trim l = "---".toList := by
  rw [trim, trimStart_of_trimEnd_dash l h, h]

/-- C5 counterexample: on a document whose first line is `" ---"` (leading
whitespace), the claim's condition — first line *trimmed* equals `---` —
holds, yet `frontmatter_bounds` returns `none`, because the source only
strips trailing whitespace from delimiter lines. -/
theorem frontmatter_bounds_claim_cex :
    frontmatter_bounds " ---\nx\n---".toList = none ∧
    claimBoundsFullTrim " ---\nx\n---".toList = some (1, 1) := by
  exact ⟨by decide, by decide⟩

/-- C5 (amended): `frontmatter_bounds` returns `some (start, end)` iff the
first line with *trailing whitespace* stripped equals `---` and a subsequent
line stripped the same way equals `---`, with `start = first_delim + 1` and
`end = close_delim - 1`, returning `none` when `close_delim ≤ first_delim + 1`;
in every `some` result `0 < start ≤ end + 1` and both delimiter lines contain
only `---` after (full) trimming. -/
theorem frontmatter_bounds_amended (text : Str) :
    frontmatter_bounds text = specBoundsTrailing text ∧
    (∀ s e, frontmatter_bounds text = some (s, e) →
      0 < s ∧ s ≤ e + 1 ∧
      ∃ first closeLine,
        (rustLines text)[0]? = some first ∧ trim first = "---".toList ∧
        (rustLines text)[e + 1]? = some closeLine ∧ trim closeLine = "---".toList) := by
  constructor
  · cases hls : rustLines text with
    | nil => simp [frontmatter_bounds, specBoundsTrailing, hls]
    | cons first rest =>
      simp only [frontmatter_bounds, specBoundsTrailing, hls]
      by_cases hf : trimEnd first = "---".toList
      · rw [if_neg (not_not_intro hf), if_neg (not_not_intro hf),
          findCloseDelim_eq rest 1, show (1 : Nat) = 0 + 1 from rfl, List.findIdx?_succ]
        cases rest.findIdx? (fun l => trimEnd l = "---".toList) with
        | none => rfl
        | some j => simp
      · rw [if_pos hf, if_pos hf]
  · intro s e h
    cases hls : rustLines text with
    | nil => simp [frontmatter_bounds, hls] at h
    | cons first rest =>
      simp only [frontmatter_bounds, hls] at h
      by_cases hf : trimEnd first = "---".toList
      · rw [if_neg (not_not_intro hf)] at h
        rcases hc : findCloseDelim rest 1 with _ | c
        · simp only [hc] at h
          cases h
        · simp only [hc] at h
          by_cases hcle : c ≤ 1
          · rw [if_pos hcle] at h
            cases h
          · rw [if_neg hcle] at h
            have hs : s = 1 ∧ e = c - 1 := by
              have := h
              simp only [Option.some.injEq, Prod.mk.injEq] at this
              exact ⟨this.1.symm, this.2.symm⟩
            obtain ⟨hs1, he1⟩ := hs
            have hfind : rest.findIdx? (fun l => trimEnd l = "---".toList) 1 = some c := by
              rw [← findCloseDelim_eq]
              exact hc
            rw [show (1 : Nat) = 0 + 1 from rfl, List.findIdx?_succ] at hfind
            rw [Option.map_eq_some'] at hfind
            obtain ⟨j, hj, hjc⟩ := hfind
            rw [List.findIdx?_eq_some_iff_getElem] at hj
            obtain ⟨hjlt, hpj, _⟩ := hj
            refine ⟨by omega, by omega, first, rest[j], ?_, ?_, ?_, ?_⟩
            · simp
            · exact trim_of_trimEnd_dash first hf
            · rw [show e + 1 = j + 1 by omega, List.getElem?_cons_succ]
              exact List.getElem?_eq_getElem hjlt
            · exact trim_of_trimEnd_dash _ (by simpa using hpj)
      · rw [if_pos hf] at h
        cases h

/-- Witness for the amended C5 theorem at a concrete document. -/
theorem frontmatter_bounds_amended_witness :
    frontmatter_bounds "---\na: 1\n---\nbody".toList
        = specBoundsTrailing "---\na: 1\n---\nbody".toList ∧
    (0 < 1 ∧ 1 ≤ 1 + 1 ∧
      ∃ first closeLine,
        (rustLines "---\na: 1\n---\nbody".toList)[0]? = some first ∧
        trim first = "---".toList ∧
        (rustLines "---\na: 1\n---\nbody".toList)[1 + 1]? = some closeLine ∧
        trim closeLine = "---".toList) :=
  ⟨(frontmatter_bounds_amended "---\na: 1\n---\nbody".toList).1,
    (frontmatter_bounds_amended "---\na: 1\n---\nbody".toList).2 1 1 (by decide)⟩

/-! ### Substring containment (Rust `str::contains`) -/

/-- Embeds Rust `str::contains` for a string pattern. -/
def containsSub (pat : Str) : Str → Bool
  | [] => pat.isPrefixOf []
  | s@(_ :: rest) => pat.isPrefixOf s || containsSub pat rest

theorem containsSub_iff (pat s : Str) : containsSub pat s = true ↔ pat <:+: s := by
  induction s with
  | nil => simp [containsSub]
  | cons c cs ih => simp [containsSub, ih, List.infix_cons_iff]

/-! ### C3: collection invalidation on `did_save` -/

/-- Decision taken by `did_save` (src/server.rs, lines 234-254): the handler
returns early unless the URI path ends with `.md`; it then invalidates the
collection exactly when the path contains the substring `/_types/`. -/
def didSaveInvalidates (path : Str) : Bool :=
  ".md".toList.isSuffixOf path && containsSub "/_types/".toList path

/-- Effect of `did_save` on the cached collection handle:
`invalidate_collection` (src/state.rs, lines 107-110) stores `none`;
otherwise the handle is untouched. -/
def didSaveCollectionAfter {α : Type} (cached : Option α) (path : Str) : Option α :=
  if didSaveInvalidates path then none else cached

/-- The invalidation condition exactly as the claim words it: the saved path
is under `<root>/<types_folder>/` for the configured types folder. -/
def claimInvalidates (root typesFolder path : Str) : Bool :=
  (root ++ '/' :: typesFolder ++ ['/']).isPrefixOf path

/-- C3 counterexample: with a configured types folder `schemas` under root
`/ws`, saving `/ws/schemas/a.md` is under the types folder (the claim demands
invalidation), yet the cached handle is left unchanged, because the source
hardcodes the substring test `/_types/`. -/
theorem didSave_invalidate_cex :
    claimInvalidates "/ws".toList "schemas".toList "/ws/schemas/a.md".toList = true ∧
    didSaveCollectionAfter (some 0) "/ws/schemas/a.md".toList = some 0 := by
  exact ⟨by decide, by decide⟩

/-- C3 (amended): on `did_save` the cached collection handle becomes `none`
iff it already was `none` or the saved path ends with `.md` and contains the
substring `/_types/`; in every other case the handle is returned unchanged.
The configured `types_folder` setting and the workspace root play no role. -/
theorem didSave_invalidate_amended {α : Type} (cached : Option α) (path : Str) :
    (didSaveCollectionAfter cached path = none ↔
      cached = none ∨ (".md".toList <:+ path ∧ "/_types/".toList <:+: path)) ∧
    (¬ (".md".toList <:+ path ∧ "/_types/".toList <:+: path) →
      didSaveCollectionAfter cached path = cached) := by
  have h1 : (".md".toList.isSuffixOf path && containsSub "/_types/".toList path) = true
      ↔ (".md".toList <:+ path ∧ "/_types/".toList <:+: path) := by
    simp [containsSub_iff]
  unfold didSaveCollectionAfter didSaveInvalidates
  by_cases hB : ".md".toList <:+ path ∧ "/_types/".toList <:+: path
  · rw [if_pos (h1.mpr hB)]
    exact ⟨iff_of_true rfl (Or.inr hB), fun hn => absurd hB hn⟩
  · rw [if_neg (fun hc => hB (h1.mp hc))]
    exact ⟨⟨fun h => Or.inl h, fun h => h.resolve_right hB⟩, fun _ => rfl⟩

/-- Witness for the amended C3 theorem at a concrete save path. -/
theorem didSave_invalidate_amended_witness :
    (didSaveCollectionAfter (some 5) "/ws/_types/task.md".toList = none ↔
      (some 5 : Option Nat) = none ∨
        (".md".toList <:+ "/ws/_types/task.md".toList ∧
          "/_types/".toList <:+: "/ws/_types/task.md".toList)) ∧
    (¬ (".md".toList <:+ "/ws/_types/task.md".toList ∧
          "/_types/".toList <:+: "/ws/_types/task.md".toList) →
      didSaveCollectionAfter (some 5) "/ws/_types/task.md".toList = some 5) :=
  didSave_invalidate_amended (some 5) "/ws/_types/task.md".toList

/-! ### C10: file index upsert / remove -/

/-- File index entry (src/file_index.rs, lines 9-18). -/
structure FileEntry where
  rel_path : Str
  types : List Str
  tags : List Str
  display_name : Option Str
  title : Option Str
  id : Option Str
  preview : Option Str
deriving DecidableEq

/-- List-level behaviour of `upsert_from_text` on the entry vector
(src/file_index.rs, lines 70-75): replace the first entry with a matching
`rel_path` in place, else push at the end. -/
def upsertEntry : List FileEntry → FileEntry → List FileEntry
  | [], e => [e]
  | x :: xs, e => if x.rel_path = e.rel_path then e :: xs else x :: upsertEntry xs e

/-- Embeds `remove_path` (src/file_index.rs, lines 79-82): retain entries whose
`rel_path` differs. -/
def removePath (entries : List FileEntry) (p : Str) : List FileEntry :=
  entries.filter (fun e => e.rel_path ≠ p)

/-- Embeds `upsert_from_text` leaves the index untouched when the parsed frontmatter
reports an error (src/file_index.rs, lines 62-69); `parseOk` abstracts that
guard. -/
def upsert_from_text (entries : List FileEntry) (parseOk : Bool) (entry : FileEntry) :
    List FileEntry :=
  if parseOk then upsertEntry entries entry else entries

theorem upsertEntry_map_mem (xs : List FileEntry) (e : FileEntry) (y : Str)
    (hy : y ∈ (upsertEntry xs e).map FileEntry.rel_path) :
    y ∈ xs.map FileEntry.rel_path ∨ y = e.rel_path := by
  induction xs with
  | nil =>
    simp [upsertEntry] at hy
    exact Or.inr hy
  | cons x xs ih =>
    by_cases hx : x.rel_path = e.rel_path
    · simp only [upsertEntry, if_pos hx, List.map_cons, List.mem_cons] at hy
      rcases hy with hy | hy
      · exact Or.inr hy
      · exact Or.inl (List.mem_cons_of_mem _ hy)
    · simp only [upsertEntry, if_neg hx, List.map_cons, List.mem_cons] at hy
      rcases hy with hy | hy
      · exact Or.inl (by simp [hy])
      · rcases ih hy with h | h
        · exact Or.inl (List.mem_cons_of_mem _ h)
        · exact Or.inr h

theorem upsertEntry_nodup (xs : List FileEntry) (e : FileEntry)
    (h : (xs.map FileEntry.rel_path).Nodup) :
    ((upsertEntry xs e).map FileEntry.rel_path).Nodup := by
  induction xs with
  | nil => simp [upsertEntry]
  | cons x xs ih =>
    rw [List.map_cons, List.nodup_cons] at h
    by_cases hx : x.rel_path = e.rel_path
    · simp only [upsertEntry, if_pos hx, List.map_cons, List.nodup_cons]
      exact ⟨by rw [← hx]; exact h.1, h.2⟩
    · simp only [upsertEntry, if_neg hx, List.map_cons, List.nodup_cons]
      refine ⟨fun hmem => ?_, ih h.2⟩
      rcases upsertEntry_map_mem xs e _ hmem with hm | hm
      · exact h.1 hm
      · exact hx hm

/-- C10: when all `rel_path`s are pairwise distinct, both index mutations
preserve distinctness; `upsert_from_text` replaces an existing entry in place
(same path multiset) and appends only when no entry matches, and
`remove_path` removes every entry carrying the given path. -/
theorem file_index_distinct (entries : List FileEntry) (ok : Bool) (e : FileEntry) (p : Str)
    (h : (entries.map FileEntry.rel_path).Nodup) :
    ((upsert_from_text entries ok e).map FileEntry.rel_path).Nodup ∧
    ((removePath entries p).map FileEntry.rel_path).Nodup ∧
    (∀ x ∈ removePath entries p, x.rel_path ≠ p) ∧
    ((∃ x ∈ entries, x.rel_path = e.rel_path) →
      (upsertEntry entries e).map FileEntry.rel_path = entries.map FileEntry.rel_path) ∧
    ((∀ x ∈ entries, x.rel_path ≠ e.rel_path) → upsertEntry entries e = entries ++ [e]) := by
  refine ⟨?_, ?_, ?_, ?_, ?_⟩
  · unfold upsert_from_text
    cases ok with
    | true => exact upsertEntry_nodup entries e h
    | false => exact h
  · exact List.Nodup.sublist (List.Sublist.map _ (List.filter_sublist entries)) h
  · intro x hx
    have := List.of_mem_filter hx
    simpa using this
  · intro hex
    induction entries with
    | nil => simp at hex
    | cons x xs ih =>
      by_cases hx : x.rel_path = e.rel_path
      · rw [show upsertEntry (x :: xs) e = e :: xs from by simp [upsertEntry, hx]]
        simp [hx]
      · have hex' : ∃ y ∈ xs, y.rel_path = e.rel_path := by
          rcases hex with ⟨y, hy, hye⟩
          rcases List.mem_cons.mp hy with rfl | hy'
          · exact absurd hye hx
          · exact ⟨y, hy', hye⟩
        rw [List.map_cons, List.nodup_cons] at h
        simp only [upsertEntry, if_neg hx, List.map_cons, ih h.2 hex']
  · intro hall
    induction entries with
    | nil => rfl
    | cons x xs ih =>
      have hx : x.rel_path ≠ e.rel_path := hall x (List.mem_cons_self x xs)
      rw [List.map_cons, List.nodup_cons] at h
      have ih' := ih h.2 (fun y hy => hall y (List.mem_cons_of_mem x hy))
      simp only [upsertEntry, if_neg hx, ih', List.cons_append]

/-- Witness for C10 at a concrete two-entry index. -/
theorem file_index_distinct_witness :
    ((upsert_from_text
        [⟨"a.md".toList, [], [], none, none, none, none⟩,
          ⟨"b.md".toList, [], [], none, none, none, none⟩] true
        ⟨"a.md".toList, ["note".toList], [], none, none, none, none⟩).map
      FileEntry.rel_path).Nodup ∧
    ((removePath
        [⟨"a.md".toList, [], [], none, none, none, none⟩,
          ⟨"b.md".toList, [], [], none, none, none, none⟩] "b.md".toList).map
      FileEntry.rel_path).Nodup ∧
    (∀ x ∈ removePath
        [⟨"a.md".toList, [], [], none, none, none, none⟩,
          ⟨"b.md".toList, [], [], none, none, none, none⟩] "b.md".toList,
      x.rel_path ≠ "b.md".toList) ∧
    ((∃ x ∈ [⟨"a.md".toList, [], [], none, none, none, none⟩,
          (⟨"b.md".toList, [], [], none, none, none, none⟩ : FileEntry)],
        x.rel_path = ("a.md".toList : Str)) →
      (upsertEntry
        [⟨"a.md".toList, [], [], none, none, none, none⟩,
          ⟨"b.md".toList, [], [], none, none, none, none⟩]
        ⟨"a.md".toList, ["note".toList], [], none, none, none, none⟩).map
          FileEntry.rel_path
        = ([⟨"a.md".toList, [], [], none, none, none, none⟩,
            (⟨"b.md".toList, [], [], none, none, none, none⟩ : FileEntry)]).map
          FileEntry.rel_path) ∧
    ((∀ x ∈ [⟨"a.md".toList, [], [], none, none, none, none⟩,
          (⟨"b.md".toList, [], [], none, none, none, none⟩ : FileEntry)],
        x.rel_path ≠ ("a.md".toList : Str)) →
      upsertEntry
        [⟨"a.md".toList, [], [], none, none, none, none⟩,
          ⟨"b.md".toList, [], [], none, none, none, none⟩]
        ⟨"a.md".toList, ["note".toList], [], none, none, none, none⟩
        = [⟨"a.md".toList, [], [], none, none, none, none⟩,
            ⟨"b.md".toList, [], [], none, none, none, none⟩]
          ++ [⟨"a.md".toList, ["note".toList], [], none, none, none, none⟩]) :=
  file_index_distinct
    [⟨"a.md".toList, [], [], none, none, none, none⟩,
      ⟨"b.md".toList, [], [], none, none, none, none⟩] true
    ⟨"a.md".toList, ["note".toList], [], none, none, none, none⟩ "b.md".toList
    (by decide)

/-! ### JSON model and C2: file-index entry construction -/

/-- Minimal model of `serde_json::Value` as consumed by the embedded code. -/
inductive Json where
  | null
  | boolean (b : Bool)
  | num (n : Int)
  | str (s : Str)
  | arr (xs : List Json)
  | obj (fields : List (Str × Json))

/-- Embeds `value.get(key)` on a JSON mapping. -/
def jsonGet (j : Json) (key : Str) : Option Json :=
  match j with
  | .obj fs => fs.lookup key
  | _ => none

/-- Embeds `value.as_str()`. -/
def jsonAsStr : Json → Option Str
  | .str s => some s
  | _ => none

/-- Embeds `json_string` (src/file_index.rs, lines 200-207): string field, trimmed,
empty mapped to `none`. -/
def json_string (fm : Json) (key : Str) : Option Str :=
  match (jsonGet fm key).bind jsonAsStr with
  | none => none
  | some v => let t := trim v; if t = [] then none else some t

/-- Embeds `build_preview` (src/file_index.rs, lines 163-173). -/
def build_preview (content : Str) : Option Str :=
  if content = [] then none
  else
    let preview := content.take 2000
    if 2000 < content.length then some (preview ++ "...".toList) else some preview

/-- Embeds `collect_tags` (src/file_index.rs, lines 175-198); `bodyTags` abstracts
the external document parser plus body-tag extractor. -/
def collect_tags (bodyTags : Str → List Str) (content : Str) (fm : Json) : List Str :=
  let base : List Str :=
    match jsonGet fm "tags".toList with
    | some (Json.arr xs) =>
      xs.foldl (fun acc v =>
        match v with
        | Json.str t => if acc.contains t then acc else acc ++ [t]
        | _ => acc) []
    | some (Json.str t) => [t]
    | _ => []
  (bodyTags content).foldl (fun acc t => if acc.contains t then acc else acc ++ [t]) base

/-- Embeds `build_entry` (src/file_index.rs, lines 137-161); `determineTypes`
abstracts the external `collection.determine_types_for_path`. -/
def build_entry (determineTypes : Json → Str → List Str) (bodyTags : Str → List Str)
    (rel_path content : Str) (fm : Json) : FileEntry :=
  let types := determineTypes fm rel_path
  let title := json_string fm "title".toList
  let id := json_string fm "id".toList
  let display_name := (title.or (json_string fm "name".toList)).or id
  { rel_path := rel_path, types := types, tags := collect_tags bodyTags content fm,
    display_name := display_name, title := title, id := id,
    preview := build_preview content }

/-- The display-name rule exactly as the claim words it: prefer the value of
the field named by any matched type's `display_name` setting, else the
frontmatter field `display-name`, else `title`; first non-empty candidate
wins.  `displayFields` lists the matched types' `display_name` settings. -/
def claimDisplayName (displayFields : List Str) (fm : Json) : Option Str :=
  ((displayFields.findSome? (fun f => json_string fm f)).or
    (json_string fm "display-name".toList)).or (json_string fm "title".toList)

/-- C2 counterexample: a frontmatter with only `display-name: X` must yield
display name `X` by the claim, yet `build_entry` produces `none`, because the
source derives `display_name` from `title`, `name`, `id` only. -/
theorem display_name_cex :
    claimDisplayName [] (Json.obj [("display-name".toList, Json.str "X".toList)])
      = some "X".toList ∧
    (build_entry (fun _ _ => []) (fun _ => []) "n.md".toList []
        (Json.obj [("display-name".toList, Json.str "X".toList)])).display_name = none := by
  exact ⟨by decide, by decide⟩

/-- C2 (amended): the file-index entry's `display_name` is the first
non-empty of the trimmed frontmatter string fields `title`, `name`, `id`;
matched types' `display_name` settings and the `display-name` field are not
consulted. -/
theorem build_entry_display_name (dt : Json → Str → List Str) (bt : Str → List Str)
    (rel content : Str) (fm : Json) :
    (build_entry dt bt rel content fm).display_name
      = ((json_string fm "title".toList).or (json_string fm "name".toList)).or
          (json_string fm "id".toList) ∧
    (∀ v, (build_entry dt bt rel content fm).display_name = some v ↔
      (json_string fm "title".toList = some v ∨
        (json_string fm "title".toList = none ∧ json_string fm "name".toList = some v) ∨
        (json_string fm "title".toList = none ∧ json_string fm "name".toList = none ∧
          json_string fm "id".toList = some v))) := by
  refine ⟨rfl, fun v => ?_⟩
  show (((json_string fm "title".toList).or (json_string fm "name".toList)).or
      (json_string fm "id".toList)) = some v ↔ _
  cases ht : json_string fm "title".toList <;> cases hn : json_string fm "name".toList <;>
    simp [Option.or]

/-- Witness for the amended C2 theorem at a concrete frontmatter. -/
theorem build_entry_display_name_witness :
    ((build_entry (fun _ _ => []) (fun _ => []) "n.md".toList []
        (Json.obj [("name".toList, Json.str "N".toList)])).display_name
      = ((json_string (Json.obj [("name".toList, Json.str "N".toList)]) "title".toList).or
          (json_string (Json.obj [("name".toList, Json.str "N".toList)]) "name".toList)).or
          (json_string (Json.obj [("name".toList, Json.str "N".toList)]) "id".toList)) ∧
    ((build_entry (fun _ _ => []) (fun _ => []) "n.md".toList []
        (Json.obj [("name".toList, Json.str "N".toList)])).display_name = some "N".toList ↔
      (json_string (Json.obj [("name".toList, Json.str "N".toList)]) "title".toList
          = some "N".toList ∨
        (json_string (Json.obj [("name".toList, Json.str "N".toList)]) "title".toList = none ∧
          json_string (Json.obj [("name".toList, Json.str "N".toList)]) "name".toList
            = some "N".toList) ∨
        (json_string (Json.obj [("name".toList, Json.str "N".toList)]) "title".toList = none ∧
          json_string (Json.obj [("name".toList, Json.str "N".toList)]) "name".toList = none ∧
          json_string (Json.obj [("name".toList, Json.str "N".toList)]) "id".toList
            = some "N".toList))) :=
  ⟨(build_entry_display_name (fun _ _ => []) (fun _ => []) "n.md".toList []
      (Json.obj [("name".toList, Json.str "N".toList)])).1,
    (build_entry_display_name (fun _ _ => []) (fun _ => []) "n.md".toList []
      (Json.obj [("name".toList, Json.str "N".toList)])).2 "N".toList⟩

/-! ### More string helpers shared by the feature providers -/

/-- Split at the first occurrence of `c`: Rust `str::split_once` /
`find`-then-slice idiom.  Returns the part before and, when `c` occurs,
the part after. -/
def splitFirstChar (c : Char) : Str → Str × Option Str
  | [] => ([], none)
  | x :: xs =>
    if x = c then ([], some xs)
    else
      let r := splitFirstChar c xs
      (x :: r.1, r.2)

/-- Rust `str::to_lowercase` (ASCII behaviour). -/
def toLowerStr (s : Str) : Str := s.map Char.toLower

/-- Rust `str::eq_ignore_ascii_case`. -/
def eqIgnoreCase (a b : Str) : Bool := toLowerStr a == toLowerStr b

/-! ### C1: `mdbase.queryCollection` command -/

/-- Free-text haystack of `matches_query` (src/symbols.rs, lines 94-103). -/
def matchesHaystack (e : FileEntry) : Str :=
  toLowerStr (e.rel_path ++ ' ' :: (e.display_name.getD []) ++ ' ' :: (e.title.getD [])
    ++ ' ' :: joinChar ' ' e.types ++ ' ' :: joinChar ' ' e.tags)

/-- Embeds `matches_query` (src/symbols.rs, lines 71-104); `query` arrives trimmed
and lowercased by the callers. -/
def matches_query (e : FileEntry) (query : Str) : Bool :=
  if query = [] then true
  else
    match splitFirstChar ':' query with
    | (k, some v) =>
      let value := trim v
      let key := trim k
      if key = "type".toList then e.types.any (fun t => eqIgnoreCase t value)
      else if key = "tag".toList then e.tags.any (fun t => eqIgnoreCase t value)
      else if key = "id".toList then
        match e.id with
        | some i => eqIgnoreCase i value
        | none => false
      else if key = "title".toList then
        match e.title with
        | some t => containsSub value (toLowerStr t)
        | none => false
      else false
    | (_, none) => containsSub query (matchesHaystack e)

/-- Shape of one `queryCollection` match (src/symbols.rs, lines 54-62). -/
structure QueryMatch where
  path : Str
  title : Option Str
  id : Option Str
  types : List Str
  tags : List Str
deriving DecidableEq

/-- Shape of the `queryCollection` result (src/symbols.rs, lines 64-68);
`qmatches` stands for the source's `matches` key, a reserved word here. -/
structure QueryResult where
  query : Str
  count : Nat
  qmatches : List QueryMatch
deriving DecidableEq

/-- Embeds `query_collection` (src/symbols.rs, lines 47-69) over the entry snapshot. -/
def query_collection (entries : List FileEntry) (query : Str) : QueryResult :=
  let normalized := toLowerStr (trim query)
  let ms := (entries.filter (fun e => matches_query e normalized)).map
    (fun e => ⟨e.rel_path, e.title, e.id, e.types, e.tags⟩)
  ⟨query, ms.length, ms⟩

inductive ExecHandler where
  | createFile
  | typeInfo
  | validateCollection
  | unknownCommand
deriving DecidableEq

/-- Command dispatch of `execute` (src/commands.rs, lines 10-30): only three
command names are routed; every other command name falls to the default arm,
which logs an "Unknown command" warning and returns `Ok(None)`. -/
def executeDispatch (cmd : Str) : ExecHandler :=
  if cmd = "mdbase.createFile".toList then .createFile
  else if cmd = "mdbase.typeInfo".toList then .typeInfo
  else if cmd = "mdbase.validateCollection".toList then .validateCollection
  else .unknownCommand

/-- Commands advertised in the server capabilities (src/server.rs, 80-88). -/
def advertisedCommands : List Str :=
  ["mdbase.createFile".toList, "mdbase.typeInfo".toList,
    "mdbase.validateCollection".toList, "mdbase.queryCollection".toList]

/-- C1: `mdbase.queryCollection` is advertised as an executable command and
`symbols::query_collection` computes exactly the claimed reshaped result, but
the `execute` dispatcher never routes the command: it falls to the default
arm and returns `None` instead of the query result. -/
theorem queryCollection_not_dispatched :
    "mdbase.queryCollection".toList ∈ advertisedCommands ∧
    executeDispatch "mdbase.queryCollection".toList = ExecHandler.unknownCommand ∧
    query_collection
        [⟨"notes/demo.md".toList, ["zettel".toList], [], none, some "Demo".toList,
          none, none⟩] "demo".toList
      = ⟨"demo".toList, 1,
          [⟨"notes/demo.md".toList, some "Demo".toList, none, ["zettel".toList], []⟩]⟩ := by
  exact ⟨by decide, by decide, by decide⟩

/-! ### C7: diagnostics on frontmatter parse errors -/

/-- LSP position (line, character). -/
structure Pos where
  line : Nat
  character : Nat
deriving DecidableEq

/-- LSP range; `stop` stands for the protocol's `end`, a reserved word here. -/
structure LspRange where
  start : Pos
  stop : Pos
deriving DecidableEq

inductive Severity where
  | error
  | warning
  | information
deriving DecidableEq

/-- Validation issue as read from the external validator's JSON
(src/diagnostics.rs, lines 141-160 read these keys). -/
structure Issue where
  code : Option Str
  message : Option Str
  severity : Option Str
  field : Option Str
deriving DecidableEq

/-- LSP diagnostic as built by src/diagnostics.rs; `data` carries the
original issue. -/
structure Diagnostic where
  range : LspRange
  severity : Option Severity
  code : Option Str
  source : Option Str
  message : Str
  data : Option Issue
deriving DecidableEq

/-- Cached frontmatter parse result (src/text.rs, lines 3-9). -/
structure ParsedFrontmatter where
  json : Json
  has_frontmatter : Bool
  parse_error : Bool
  mapping_error : Bool

/-- Field-key hit test for one line (src/text.rs, lines 100-113): the trimmed
line must start with the field name followed, after optional whitespace, by a
colon; columns count the leading-whitespace prefix. -/
def fieldLineHit (field line : Str) : Option (Nat × Nat) :=
  let trimmed := trimStart line
  if field.isPrefixOf trimmed then
    let after := trimStart (trimmed.drop field.length)
    if after.head? = some ':' then
      let prefixLen := line.length - trimmed.length
      some (prefixLen, prefixLen + field.length)
    else none
  else none

/-- Line scan of `find_field_range` restricted to the frontmatter bounds. -/
def findFieldInLines : List Str → Nat → Nat → Nat → Str → Option (Nat × Nat × Nat)
  | [], _, _, _, _ => none
  | l :: rest, idx, s, e, field =>
    if idx < s ∨ idx > e then findFieldInLines rest (idx + 1) s e field
    else
      match fieldLineHit field l with
      | some (a, b) => some (idx, a, b)
      | none => findFieldInLines rest (idx + 1) s e field

/-- Embeds `find_field_range` (src/text.rs, lines 87-120). -/
def find_field_range (text field : Str) (fallback_line : Nat) : Pos × Pos :=
  match frontmatter_bounds text with
  | some (s, e) =>
    match findFieldInLines (rustLines text) 0 s e field with
    | some (li, a, b) => (⟨li, a⟩, ⟨li, b⟩)
    | none => (⟨fallback_line, 0⟩, ⟨fallback_line, 0⟩)
  | none => (⟨fallback_line, 0⟩, ⟨fallback_line, 0⟩)

/-- Embeds `diagnostic_from_issue` (src/diagnostics.rs, lines 141-179). -/
def diagnostic_from_issue (text : Str) (fallback_line : Nat) (issue : Issue) : Diagnostic :=
  let code := issue.code.getD "unknown".toList
  let message := issue.message.getD "Validation issue".toList
  let sevStr := issue.severity.getD "error".toList
  let severity :=
    if sevStr = "warning".toList then Severity.warning
    else if sevStr = "info".toList then Severity.information
    else Severity.error
  let range :=
    match issue.field with
    | some f =>
      let p := find_field_range text f fallback_line
      LspRange.mk p.1 p.2
    | none => ⟨⟨fallback_line, 0⟩, ⟨fallback_line, 0⟩⟩
  ⟨range, some severity, some code, some "mdbase".toList, message, some issue⟩

/-- Embeds `diagnostics_from_issues` (src/diagnostics.rs, lines 131-139). -/
def diagnostics_from_issues (text : Str) (issues : List Issue) : List Diagnostic :=
  let fallback_line := ((frontmatter_bounds text).map Prod.fst).getD 0
  issues.map (diagnostic_from_issue text fallback_line)

/-- Embeds `compute` (src/diagnostics.rs, lines 89-129); `validator` abstracts
`collection.validate_op` and `parseFm` abstracts `text::parse_frontmatter`
(both reach external library code). -/
def compute (validator : Str → Json → List Issue) (parseFm : Str → ParsedFrontmatter)
    (text rel_path : Str) (cached : Option ParsedFrontmatter) : List Diagnostic :=
  let parsed :=
    match cached with
    | some p => p
    | none => parseFm text
  if parsed.parse_error then
    [⟨⟨⟨0, 0⟩, ⟨0, 0⟩⟩, some Severity.error, some "invalid_frontmatter".toList,
        some "mdbase".toList, "Failed to parse YAML frontmatter".toList, none⟩]
  else if parsed.mapping_error then
    [⟨⟨⟨0, 0⟩, ⟨0, 0⟩⟩, some Severity.error, some "invalid_frontmatter".toList,
        some "mdbase".toList, "Frontmatter must be a YAML mapping".toList, none⟩]
  else diagnostics_from_issues text (validator rel_path parsed.json)

/-- C7: with a cached parse whose `parse_error` flag is set, `compute`
returns exactly one diagnostic — empty range at (0,0), code
`invalid_frontmatter`, source `mdbase`, message "Failed to parse YAML
frontmatter"; with `mapping_error` set instead, the same except the message
"Frontmatter must be a YAML mapping".  The result does not depend on the
validator, which is never consulted on these paths. -/
theorem compute_frontmatter_errors
    (validator : Str → Json → List Issue) (parseFm : Str → ParsedFrontmatter)
    (text rel : Str) (pf : ParsedFrontmatter) :
    (pf.parse_error = true →
      compute validator parseFm text rel (some pf)
        = [⟨⟨⟨0, 0⟩, ⟨0, 0⟩⟩, some Severity.error, some "invalid_frontmatter".toList,
            some "mdbase".toList, "Failed to parse YAML frontmatter".toList, none⟩]) ∧
    (pf.parse_error = false → pf.mapping_error = true →
      compute validator parseFm text rel (some pf)
        = [⟨⟨⟨0, 0⟩, ⟨0, 0⟩⟩, some Severity.error, some "invalid_frontmatter".toList,
            some "mdbase".toList, "Frontmatter must be a YAML mapping".toList, none⟩]) := by
  constructor
  · intro h
    simp [compute, h]
  · intro h1 h2
    simp [compute, h1, h2]

/-- Witness for C7 at concrete cached parses, with a validator that would
report an issue if it were consulted. -/
theorem compute_frontmatter_errors_witness :
    compute (fun _ _ => [⟨some "x".toList, none, none, none⟩])
        (fun _ => ⟨Json.null, false, false, false⟩) [] []
        (some ⟨Json.null, true, true, false⟩)
      = [⟨⟨⟨0, 0⟩, ⟨0, 0⟩⟩, some Severity.error, some "invalid_frontmatter".toList,
          some "mdbase".toList, "Failed to parse YAML frontmatter".toList, none⟩] ∧
    compute (fun _ _ => [⟨some "x".toList, none, none, none⟩])
        (fun _ => ⟨Json.null, false, false, false⟩) [] []
        (some ⟨Json.null, true, false, true⟩)
      = [⟨⟨⟨0, 0⟩, ⟨0, 0⟩⟩, some Severity.error, some "invalid_frontmatter".toList,
          some "mdbase".toList, "Frontmatter must be a YAML mapping".toList, none⟩] :=
  ⟨(compute_frontmatter_errors (fun _ _ => [⟨some "x".toList, none, none, none⟩])
      (fun _ => ⟨Json.null, false, false, false⟩) [] []
      ⟨Json.null, true, true, false⟩).1 rfl,
    (compute_frontmatter_errors (fun _ _ => [⟨some "x".toList, none, none, none⟩])
      (fun _ => ⟨Json.null, false, false, false⟩) [] []
      ⟨Json.null, true, false, true⟩).2 rfl rfl⟩

/-! ### Trim fixed-point lemmas -/

theorem trimStart_eq_self_of_trim (s : Str) (h : trim s = s) : trimStart s = s := by
  have hts : (trimStart s).length ≤ s.length :=
    (List.dropWhile_sublist wsChar).length_le
  have hte : (trim s).length ≤ (trimStart s).length := by
    have := (List.dropWhile_sublist (l := (trimStart s).reverse) wsChar).length_le
    simpa [trim, trimEnd] using this
  refine (List.dropWhile_sublist wsChar).eq_of_length_le ?_
  rw [h] at hte
  exact hte

theorem trimEnd_eq_self_of_trim (s : Str) (h : trim s = s) : trimEnd s = s := by
  have h1 := trimStart_eq_self_of_trim s h
  rw [trim, h1] at h
  exact h

theorem head_not_ws_of_trim (s : Str) (h : trim s = s) (c : Char) (hc : s.head? = some c) :
    wsChar c = false := by
  have h1 := trimStart_eq_self_of_trim s h
  cases s with
  | nil => cases hc
  | cons a rest =>
    have ha : a = c := by simpa using hc
    subst ha
    by_contra hw
    have hw' : wsChar a = true := by
      cases hwc : wsChar a
      · exact absurd hwc hw
      · rfl
    rw [trimStart, List.dropWhile_cons, if_pos hw'] at h1
    have := congrArg List.length h1
    have hle := (List.dropWhile_sublist (l := rest) wsChar).length_le
    simp at this
    omega

theorem getLast_not_ws_of_trim (s : Str) (h : trim s = s) (c : Char)
    (hc : s.getLast? = some c) : wsChar c = false := by
  have h1 := trimEnd_eq_self_of_trim s h
  have h2 : s.reverse.dropWhile wsChar = s.reverse := by
    have := congrArg List.reverse h1
    rwa [trimEnd, List.reverse_reverse] at this
  have hh : s.reverse.head? = some c := by simpa using hc
  cases hr : s.reverse with
  | nil => rw [hr] at hh; cases hh
  | cons a rest =>
    rw [hr] at hh h2
    have ha : a = c := by simpa using hh
    subst ha
    by_contra hw
    have hw' : wsChar a = true := by
      cases hwc : wsChar a
      · exact absurd hwc hw
      · rfl
    rw [List.dropWhile_cons, if_pos hw'] at h2
    have := congrArg List.length h2
    have hle := (List.dropWhile_sublist (l := rest) wsChar).length_le
    simp at this
    omega

theorem trimStart_cons_not_ws (c : Char) (cs : Str) (h : wsChar c = false) :
    trimStart (c :: cs) = c :: cs := by
  simp [trimStart, List.dropWhile_cons, h]

theorem trimEnd_of_getLast_not_ws (s : Str) (c : Char) (hc : s.getLast? = some c)
    (h : wsChar c = false) : trimEnd s = s := by
  cases hr : s.reverse with
  | nil =>
    have : s = [] := by simpa using congrArg List.reverse hr
    simp [this, trimEnd]
  | cons a rest =>
    have hh : s.reverse.head? = some c := by simpa using hc
    rw [hr] at hh
    have ha : a = c := by simpa using hh
    subst ha
    have : s = (a :: rest).reverse := by
      rw [← hr, List.reverse_reverse]
    rw [trimEnd, hr, List.dropWhile_cons, if_neg (by simp [h]), ← hr, List.reverse_reverse]

theorem trim_eq_self_of_ends (s : Str)
    (h1 : ∀ c, s.head? = some c → wsChar c = false)
    (h2 : ∀ c, s.getLast? = some c → wsChar c = false) : trim s = s := by
  cases s with
  | nil => rfl
  | cons a rest =>
    have hs : trimStart (a :: rest) = a :: rest :=
      trimStart_cons_not_ws a rest (h1 a rfl)
    rw [trim, hs]
    have hlast : (a :: rest).getLast? = some ((a :: rest).getLast (by simp)) := by
      simp [List.getLast?_eq_getLast]
    exact trimEnd_of_getLast_not_ws _ _ hlast (h2 _ hlast)

/-! ### Split lemmas -/

theorem splitFirstChar_not_mem (c : Char) (s : Str) (h : c ∉ s) :
    splitFirstChar c s = (s, none) := by
  induction s with
  | nil => rfl
  | cons x xs ih =>
    have hx : ¬ x = c := fun he => h (by simp [he])
    simp [splitFirstChar, hx, ih (fun hm => h (List.mem_cons_of_mem x hm))]

theorem splitFirstChar_append (c : Char) (xs ys : Str) (h : c ∉ xs) :
    splitFirstChar c (xs ++ c :: ys) = (xs, some ys) := by
  induction xs with
  | nil => simp [splitFirstChar]
  | cons x rest ih =>
    have hx : ¬ x = c := fun he => h (by simp [he])
    simp [splitFirstChar, hx, ih (fun hm => h (List.mem_cons_of_mem x hm))]

/-! ### C8: `parse_link_value` -/

/-- First occurrence of a pattern: Rust `str::find` for a string needle. -/
def findSub (pat : Str) : Str → Option Nat
  | [] => if pat.isPrefixOf ([] : Str) then some 0 else none
  | s@(_ :: rest) =>
    if pat.isPrefixOf s then some 0 else (findSub pat rest).map (· + 1)

/-- Bare-path arm of `parse_link_value` (src/collection_utils.rs, 350-355):
external URLs yield `none`, anything else is returned as-is. -/
def plvBare (value : Str) : Option Str :=
  if "http://".toList.isPrefixOf value || "https://".toList.isPrefixOf value then none
  else some value

/-- Wikilink arm of `parse_link_value` (src/collection_utils.rs, 321-330):
slice off the brackets, cut at the first `|` and `#`, trim.  No URL check. -/
def plvWiki (value : Str) : Option Str :=
  let inner := ((value.drop 2).dropLast).dropLast
  let target := trim (splitFirstChar '#' (splitFirstChar '|' inner).1).1
  if target = [] then none else some target

/-- Markdown arm of `parse_link_value` (src/collection_utils.rs, 332-348);
when the value has no `](` or no closing parenthesis the source falls
through to the bare-path arm. -/
def plvMarkdownOrBare (value : Str) : Option Str :=
  match findSub "](".toList value with
  | some be =>
    if value.getLast? = some ')' then
      let path := trim ((value.drop (be + 2)).dropLast)
      if path = [] then none
      else if "http://".toList.isPrefixOf path || "https://".toList.isPrefixOf path then
        none
      else
        let target := (splitFirstChar '#' path).1
        if target = [] then none else some target
    else plvBare value
  | none => plvBare value

/-- Branch selection of `parse_link_value` on the already-trimmed value. -/
def parseLinkValueTrimmed (value : Str) : Option Str :=
  if value = [] then none
  else if "[[".toList.isPrefixOf value && "]]".toList.isSuffixOf value then plvWiki value
  else if value.head? = some '[' then plvMarkdownOrBare value
  else plvBare value

/-- Embeds `parse_link_value` (src/collection_utils.rs, lines 315-356). -/
def parse_link_value (value0 : Str) : Option Str :=
  parseLinkValueTrimmed (trim value0)

example : parse_link_value "[[target|alias]]".toList = some "target".toList := by decide
example : parse_link_value " [text](path.md#x) ".toList = some "path.md".toList := by decide
example : parse_link_value "notes/a.md".toList = some "notes/a.md".toList := by decide
example : parse_link_value "https://x.io".toList = none := by decide
example : parse_link_value "[t](https://x.io)".toList = none := by decide
example : parse_link_value "[[https://x.io]]".toList = some "https://x.io".toList := by decide

/-- C8 counterexample: an external URL in wikilink form is *not* mapped to
`none`; the wikilink arm performs no URL check and returns the URL as the
target, contradicting the claim's "external URLs → none in whichever form". -/
theorem parse_link_value_url_cex :
    parse_link_value "[[https://example.com]]".toList = some "https://example.com".toList := by
  decide

/-- C8 (amended): `parse_link_value` returns the plain target for the
wikilink, markdown-link and bare-string forms, and maps external URLs to
`none` in the markdown-link and bare-string forms only; a URL inside a
wikilink is returned unchanged (covered by the first conjunct, whose target
is unrestricted). -/
theorem parse_link_value_amended :
    (∀ t : Str, trim t = t → t ≠ [] → '|' ∉ t → '#' ∉ t →
      parse_link_value ("[[".toList ++ t ++ "]]".toList) = some t) ∧
    (∀ url : Str, trim url = url →
      ("http://".toList <+: url ∨ "https://".toList <+: url) →
      parse_link_value ("[text](".toList ++ url ++ [')']) = none) ∧
    (∀ url : Str, trim url = url → url ≠ [] → '#' ∉ url →
      ¬ "http://".toList <+: url → ¬ "https://".toList <+: url →
      parse_link_value ("[text](".toList ++ url ++ [')']) = some url) ∧
    (∀ v : Str, ("http://".toList <+: trim v ∨ "https://".toList <+: trim v) →
      parse_link_value v = none) ∧
    (∀ v : Str, trim v = v → v ≠ [] → v.head? ≠ some '[' →
      ¬ "http://".toList <+: v → ¬ "https://".toList <+: v →
      parse_link_value v = some v) := by
  refine ⟨?_, ?_, ?_, ?_, ?_⟩
  · -- wikilink form
    intro t ht ht0 htp hth
    have hv : ("[[".toList ++ t ++ "]]".toList).getLast? = some ']' := by
      rw [show "[[".toList ++ t ++ "]]".toList = (("[[".toList ++ t) ++ [']']) ++ [']'] by simp]
      exact List.getLast?_concat _
    have hfix : trim ("[[".toList ++ t ++ "]]".toList) = "[[".toList ++ t ++ "]]".toList := by
      refine trim_eq_self_of_ends _ ?_ ?_
      · intro c hc
        simp only [List.cons_append, List.head?_cons] at hc
        cases hc
        decide
      · intro c hc
        rw [hv] at hc
        cases hc
        decide
    rw [parse_link_value, hfix, parseLinkValueTrimmed]
    rw [if_neg (by simp)]
    have hpre : "[[".toList.isPrefixOf ("[[".toList ++ t ++ "]]".toList) = true := by
      simp only [ List.isPrefixOf_iff_prefix]
      exact ⟨t ++ "]]".toList, by simp⟩
    have hsuf : "]]".toList.isSuffixOf ("[[".toList ++ t ++ "]]".toList) = true := by
      simp only [List.isSuffixOf_iff_suffix]
      exact ⟨"[[".toList ++ t, by simp⟩
    rw [if_pos (by rw [hpre, hsuf]; rfl)]
    have hinner : ((("[[".toList ++ t ++ "]]".toList).drop 2).dropLast).dropLast = t := by
      rw [show ("[[".toList ++ t ++ "]]".toList).drop 2 = t ++ [']', ']'] by simp,
        show t ++ [']', ']'] = (t ++ [']']) ++ [']'] by simp,
        List.dropLast_concat, List.dropLast_concat]
    rw [plvWiki]
    simp only [hinner, splitFirstChar_not_mem _ _ htp, splitFirstChar_not_mem _ _ hth, ht]
    rw [if_neg ht0]
  · -- markdown form, external URL
    intro url hu hpre
    have hne : url ≠ [] := by
      rcases hpre with ⟨w, hw⟩ | ⟨w, hw⟩ <;> (rw [← hw]; simp)
    have hv : ("[text](".toList ++ url ++ [')']).getLast? = some ')' := by
      rw [show "[text](".toList ++ url ++ [')'] = ("[text](".toList ++ url) ++ [')'] by simp]
      exact List.getLast?_concat _
    have hfix : trim ("[text](".toList ++ url ++ [')'])
        = "[text](".toList ++ url ++ [')'] := by
      refine trim_eq_self_of_ends _ ?_ ?_
      · intro c hc
        simp only [List.cons_append, List.head?_cons] at hc
        cases hc
        decide
      · intro c hc
        rw [hv] at hc
        cases hc
        decide
    rw [parse_link_value, hfix, parseLinkValueTrimmed]
    rw [if_neg (by simp)]
    rw [if_neg (by
      intro hc
      rw [Bool.and_eq_true] at hc
      have h1 := hc.1
      rw [ List.isPrefixOf_iff_prefix] at h1
      rcases h1 with ⟨w, hw⟩
      simp at hw)]
    rw [if_pos (by simp)]
    have hfind : findSub "](".toList ("[text](".toList ++ url ++ [')']) = some 5 := by
      simp [findSub, List.isPrefixOf]
    rw [plvMarkdownOrBare]
    simp only [hfind]
    rw [if_pos hv]
    have hdrop : (("[text](".toList ++ url ++ [')']).drop (5 + 2)).dropLast = url := by
      rw [show "[text](".toList ++ url ++ [')'] = "[text](".toList ++ (url ++ [')']) by simp,
        List.drop_left' (by rfl), List.dropLast_concat]
    simp only [hdrop, hu]
    rw [if_neg hne, if_pos (by
      rcases hpre with ⟨w, hw⟩ | ⟨w, hw⟩
      · have : "http://".toList.isPrefixOf url = true := by
          rw [ List.isPrefixOf_iff_prefix]
          exact ⟨w, hw⟩
        rw [this]
        rfl
      · have : "https://".toList.isPrefixOf url = true := by
          rw [ List.isPrefixOf_iff_prefix]
          exact ⟨w, hw⟩
        rw [this, Bool.or_true])]
  · -- markdown form, plain target
    intro url hu hne hh hn1 hn2
    have hv : ("[text](".toList ++ url ++ [')']).getLast? = some ')' := by
      rw [show "[text](".toList ++ url ++ [')'] = ("[text](".toList ++ url) ++ [')'] by simp]
      exact List.getLast?_concat _
    have hfix : trim ("[text](".toList ++ url ++ [')'])
        = "[text](".toList ++ url ++ [')'] := by
      refine trim_eq_self_of_ends _ ?_ ?_
      · intro c hc
        simp only [List.cons_append, List.head?_cons] at hc
        cases hc
        decide
      · intro c hc
        rw [hv] at hc
        cases hc
        decide
    rw [parse_link_value, hfix, parseLinkValueTrimmed]
    rw [if_neg (by simp)]
    rw [if_neg (by
      intro hc
      rw [Bool.and_eq_true] at hc
      have h1 := hc.1
      rw [ List.isPrefixOf_iff_prefix] at h1
      rcases h1 with ⟨w, hw⟩
      simp at hw)]
    rw [if_pos (by simp)]
    have hfind : findSub "](".toList ("[text](".toList ++ url ++ [')']) = some 5 := by
      simp [findSub, List.isPrefixOf]
    rw [plvMarkdownOrBare]
    simp only [hfind]
    rw [if_pos hv]
    have hdrop : (("[text](".toList ++ url ++ [')']).drop (5 + 2)).dropLast = url := by
      rw [show "[text](".toList ++ url ++ [')'] = "[text](".toList ++ (url ++ [')']) by simp,
        List.drop_left' (by rfl), List.dropLast_concat]
    simp only [hdrop, hu]
    rw [if_neg hne, if_neg (by
      intro hc
      rw [Bool.or_eq_true] at hc
      rcases hc with h1 | h1 <;> rw [ List.isPrefixOf_iff_prefix] at h1
      · exact hn1 h1
      · exact hn2 h1)]
    simp only [splitFirstChar_not_mem _ _ hh]
    rw [if_neg hne]
  · -- bare external URL
    intro v hpre
    rw [parse_link_value]
    rcases hpre with ⟨w, hw⟩ | ⟨w, hw⟩ <;> rw [← hw, parseLinkValueTrimmed]
    · rw [if_neg (by simp)]
      rw [if_neg (by
        intro hc
        rw [Bool.and_eq_true] at hc
        have h1 := hc.1
        rw [ List.isPrefixOf_iff_prefix] at h1
        rcases h1 with ⟨u, hu2⟩
        simp at hu2)]
      rw [if_neg (by simp)]
      rw [plvBare, if_pos (by
        have : "http://".toList.isPrefixOf ("http://".toList ++ w) = true := by
          rw [ List.isPrefixOf_iff_prefix]
          exact ⟨w, rfl⟩
        rw [this]
        rfl)]
    · rw [if_neg (by simp)]
      rw [if_neg (by
        intro hc
        rw [Bool.and_eq_true] at hc
        have h1 := hc.1
        rw [ List.isPrefixOf_iff_prefix] at h1
        rcases h1 with ⟨u, hu2⟩
        simp at hu2)]
      rw [if_neg (by simp)]
      rw [plvBare, if_pos (by
        have : "https://".toList.isPrefixOf ("https://".toList ++ w) = true := by
          rw [ List.isPrefixOf_iff_prefix]
          exact ⟨w, rfl⟩
        rw [this, Bool.or_true])]
  · -- bare plain value
    intro v ht hne hhead hn1 hn2
    rw [parse_link_value, ht, parseLinkValueTrimmed]
    rw [if_neg hne]
    rw [if_neg (by
      intro hc
      rw [Bool.and_eq_true] at hc
      have h1 := hc.1
      rw [ List.isPrefixOf_iff_prefix] at h1
      rcases h1 with ⟨w, hw⟩
      exact hhead (by rw [← hw]; rfl))]
    rw [if_neg hhead]
    rw [plvBare, if_neg (by
      intro hc
      rw [Bool.or_eq_true] at hc
      rcases hc with h1 | h1 <;> rw [ List.isPrefixOf_iff_prefix] at h1
      · exact hn1 h1
      · exact hn2 h1)]

/-- Witness for the amended C8 theorem at concrete values for every form. -/
theorem parse_link_value_amended_witness :
    parse_link_value ("[[".toList ++ "https://example.org".toList ++ "]]".toList)
        = some "https://example.org".toList ∧
    parse_link_value ("[text](".toList ++ "https://example.org".toList ++ [')']) = none ∧
    parse_link_value ("[text](".toList ++ "notes/a".toList ++ [')'])
        = some "notes/a".toList ∧
    parse_link_value "http://example.org".toList = none ∧
    parse_link_value "notes/a.md".toList = some "notes/a.md".toList :=
  ⟨parse_link_value_amended.1 "https://example.org".toList (by decide) (by decide)
      (by decide) (by decide),
    parse_link_value_amended.2.1 "https://example.org".toList (by decide) (by decide),
    parse_link_value_amended.2.2.1 "notes/a".toList (by decide) (by decide) (by decide)
      (by decide) (by decide),
    parse_link_value_amended.2.2.2.1 "http://example.org".toList (by decide),
    parse_link_value_amended.2.2.2.2 "notes/a.md".toList (by decide) (by decide)
      (by decide) (by decide) (by decide)⟩

/-! ### C4: `resolve_link_target` -/

/-- Leading-bracket stripping of `resolve_link_target`
(src/collection_utils.rs, lines 212-224). -/
def stripWikiTarget (target : Str) : Str :=
  if "[[".toList.isPrefixOf target && "]]".toList.isSuffixOf target then
    let inner := ((target.drop 2).dropLast).dropLast
    trim (splitFirstChar '#' (splitFirstChar '|' inner).1).1
  else trim (splitFirstChar '#' target).1

/-- Rust `Path::parent` on a forward-slash relative path, with the source's
`unwrap_or("")` defaults. -/
def parentDir (p : Str) : Str :=
  match (splitChar '/' p).dropLast with
  | [] => []
  | ps => joinChar '/' ps

/-- Rust `Path::join` for the relative targets that reach it
(they start with `./` or `../`). -/
def pathJoin (d t : Str) : Str := if d = [] then t else d ++ '/' :: t

/-- Embeds `normalize_path_segments` (src/collection_utils.rs, lines 179-199). -/
def normSegs (segs : List Str) : List Str :=
  segs.foldl (fun parts seg =>
    if seg = [] ∨ seg = ".".toList then parts
    else if seg = "..".toList then
      if parts = [] ∨ parts.getLast? = some "..".toList then parts ++ [seg]
      else parts.dropLast
    else parts ++ [seg]) []

def normalize_path_segments (p : Str) : Str :=
  let parts := normSegs (splitChar '/' p)
  if parts = [] then ".".toList else joinChar '/' parts

/-- Candidate normalisation of `resolve_link_target`
(src/collection_utils.rs, lines 243-253). -/
def candidateOf (target : Str) (source_rel : Option Str) : Str :=
  if "./".toList.isPrefixOf target || "../".toList.isPrefixOf target then
    let sourceDir :=
      match source_rel with
      | some s => parentDir s
      | none => []
    normalize_path_segments (pathJoin sourceDir target)
  else if target.head? = some '/' then target.drop 1
  else target

/-- Embeds `has_known_extension` (src/collection_utils.rs, lines 300-310) as a
decidable predicate: the path ends with `.md` or `.<ext>` for a configured
extension. -/
def hasKnownExt (exts : List Str) (p : Str) : Prop :=
  ".md".toList <:+ p ∨ ∃ e ∈ exts, ('.' :: e) <:+ p

instance (exts : List Str) (p : Str) : Decidable (hasKnownExt exts p) := by
  unfold hasKnownExt
  infer_instance

/-- Rust `Path::file_name`: the component after the last `/`. -/
def afterLastSlash (p : Str) : Str := ((splitChar '/' p).getLast?).getD []

def beforeLastDot (s : Str) : Str := joinChar '.' ((splitChar '.' s).dropLast)

/-- Rust `Path::file_stem` (with the source's `unwrap_or("")`): file name
without the extension after its last dot; a lone leading dot is kept. -/
def fileStem (p : Str) : Str :=
  let name := afterLastSlash p
  match name with
  | [] => []
  | c :: rest => if '.' ∈ rest then c :: beforeLastDot rest else name

/-- Extension-inference step of `resolve_link_target`
(src/collection_utils.rs, lines 263-279), with the guard written exactly as
in the source. -/
def extInfer (exts known : List Str) (r : Str) : Option Str :=
  if ¬ ('.' ∈ r) ∨ (¬ (".md".toList <:+ r) ∧ ¬ hasKnownExt exts r) then
    if (r ++ ".md".toList) ∈ known then some (r ++ ".md".toList)
    else exts.findSome? (fun e =>
      if (r ++ '.' :: e) ∈ known then some (r ++ '.' :: e) else none)
  else none

/-- The extension-inference step with the claim's guard: only when the
candidate has no known extension. -/
def extInferSpec (exts known : List Str) (r : Str) : Option Str :=
  if ¬ hasKnownExt exts r then
    if (r ++ ".md".toList) ∈ known then some (r ++ ".md".toList)
    else exts.findSome? (fun e =>
      if (r ++ '.' :: e) ∈ known then some (r ++ '.' :: e) else none)
  else none

/-- Stem-matching step exactly as in the source
(src/collection_utils.rs, lines 281-294): one pass over the known paths,
each tested case-sensitively *or* case-insensitively. -/
def stemScanCode (known : List Str) (r : Str) : Option Str :=
  if ¬ ('/' ∈ r) then
    known.find? (fun rel => fileStem rel == r || toLowerStr (fileStem rel) == toLowerStr r)
  else none

/-- Stem-matching step as the claim words it: all case-sensitive matches are
tried first, case-insensitive ones only after that. -/
def stemScanClaim (known : List Str) (r : Str) : Option Str :=
  if ¬ ('/' ∈ r) then
    match known.find? (fun rel => fileStem rel == r) with
    | some p => some p
    | none => known.find? (fun rel => toLowerStr (fileStem rel) == toLowerStr r)
  else none

/-- Stem-matching step of the amended claim: the first known path whose stem
matches case-insensitively (case-sensitive equality is a special case and
has no priority). -/
def stemScanAmended (known : List Str) (r : Str) : Option Str :=
  if ¬ ('/' ∈ r) then
    known.find? (fun rel => toLowerStr (fileStem rel) == toLowerStr r)
  else none

/-- Embeds `resolve_link_target` (src/collection_utils.rs, lines 206-298) over the
configured extensions and the scanned known-paths set; returns the matched
collection-relative path (the source joins it to the root). -/
def resolve_link_target (exts known : List Str) (target0 : Str) (source_rel : Option Str) :
    Option Str :=
  let target := stripWikiTarget target0
  if target = [] then none
  else
    let resolved := candidateOf target source_rel
    if resolved ∈ known then some resolved
    else
      match extInfer exts known resolved with
      | some p => some p
      | none => stemScanCode known resolved

/-- The resolver exactly as the claim words it (two stem passes). -/
def resolveClaim (exts known : List Str) (target0 : Str) (source_rel : Option Str) :
    Option Str :=
  let target := stripWikiTarget target0
  if target = [] then none
  else
    let resolved := candidateOf target source_rel
    if resolved ∈ known then some resolved
    else
      match extInferSpec exts known resolved with
      | some p => some p
      | none => stemScanClaim known resolved

/-- The resolver as the amended claim words it (single case-insensitive
stem pass). -/
def resolveAmended (exts known : List Str) (target0 : Str) (source_rel : Option Str) :
    Option Str :=
  let target := stripWikiTarget target0
  if target = [] then none
  else
    let resolved := candidateOf target source_rel
    if resolved ∈ known then some resolved
    else
      match extInferSpec exts known resolved with
      | some p => some p
      | none => stemScanAmended known resolved

example : resolve_link_target [] ["a/b.md".toList] "/a/b.md".toList none
    = some "a/b.md".toList := by decide
example : resolve_link_target [] ["a/b.md".toList] "b".toList (some "a/c.md".toList)
    = some "a/b.md".toList := by decide
example : resolve_link_target [] ["a/b.md".toList] "./b.md".toList (some "a/c.md".toList)
    = some "a/b.md".toList := by decide
example : resolve_link_target [] ["a/b.md".toList] "[[b|alias]]".toList none
    = some "a/b.md".toList := by decide
example : resolve_link_target [] ["x/A.md".toList, "y/a.md".toList] "a".toList none
    = some "x/A.md".toList := by decide
example : resolveClaim [] ["x/A.md".toList, "y/a.md".toList] "a".toList none
    = some "y/a.md".toList := by decide

/-- C4 counterexample: with known paths `x/A.md` and `y/a.md` and bare target
`a`, the claim's two-pass rule must pick the case-sensitive stem match
`y/a.md`, but the source's single pass returns `x/A.md`, whose stem matches
only case-insensitively. -/
theorem resolve_link_target_order_cex :
    resolve_link_target [] ["x/A.md".toList, "y/a.md".toList] "a".toList none
        = some "x/A.md".toList ∧
    resolveClaim [] ["x/A.md".toList, "y/a.md".toList] "a".toList none
        = some "y/a.md".toList := by
  exact ⟨by decide, by decide⟩

theorem extInfer_guard_iff (exts : List Str) (r : Str) :
    (¬ ('.' ∈ r) ∨ (¬ (".md".toList <:+ r) ∧ ¬ hasKnownExt exts r)) ↔
      ¬ hasKnownExt exts r := by
  constructor
  · rintro (h | ⟨_, h2⟩)
    · intro hk
      rcases hk with hk | ⟨e, _, hk⟩
      · exact h (hk.subset (by decide))
      · exact h (hk.subset (by simp))
    · exact h2
  · intro h
    exact Or.inr ⟨fun hs => h (Or.inl hs), h⟩

theorem extInfer_eq (exts known : List Str) (r : Str) :
    extInfer exts known r = extInferSpec exts known r := by
  unfold extInfer extInferSpec
  exact if_congr (extInfer_guard_iff exts r) rfl rfl

theorem find?_pred_congr {α : Type} (p q : α → Bool) (l : List α) (h : ∀ a, p a = q a) :
    l.find? p = l.find? q := by
  induction l with
  | nil => rfl
  | cons x xs ih =>
    cases hq : q x
    · rw [List.find?_cons_of_neg _ (by rw [h x, hq]; exact Bool.false_ne_true),
        List.find?_cons_of_neg _ (by rw [hq]; exact Bool.false_ne_true)]
      exact ih
    · rw [List.find?_cons_of_pos _ (by rw [h x, hq]), List.find?_cons_of_pos _ hq]

theorem stemScan_eq (known : List Str) (r : Str) :
    stemScanCode known r = stemScanAmended known r := by
  unfold stemScanCode stemScanAmended
  split
  · refine find?_pred_congr _ _ known (fun rel => ?_)
    cases hb : fileStem rel == r
    · simp [hb]
    · have he : fileStem rel = r := by simpa using hb
      simp [hb, he]
  · rfl

/-- C4 (amended): the resolver tries, in order, the exact match of the
normalized candidate; then — only if the candidate has no known extension —
the candidate with `.md` and then each configured extension appended; then,
only for bare names with no `/`, the first known path whose file stem
matches the candidate case-insensitively (case-sensitive equality has no
priority over an earlier case-insensitive match); otherwise `none`. -/
theorem resolve_link_target_amended (exts known : List Str) (target0 : Str)
    (source_rel : Option Str) :
    resolve_link_target exts known target0 source_rel
      = resolveAmended exts known target0 source_rel ∧
    (stripWikiTarget target0 ≠ [] →
      candidateOf (stripWikiTarget target0) source_rel ∈ known →
      resolve_link_target exts known target0 source_rel
        = some (candidateOf (stripWikiTarget target0) source_rel)) := by
  constructor
  · unfold resolve_link_target resolveAmended
    simp only [extInfer_eq, stemScan_eq]
  · intro hne hmem
    unfold resolve_link_target
    rw [if_neg hne, if_pos hmem]

/-- Witness for the amended C4 theorem at a concrete collection. -/
theorem resolve_link_target_amended_witness :
    resolve_link_target [] ["x/A.md".toList, "y/a.md".toList] "a".toList none
        = resolveAmended [] ["x/A.md".toList, "y/a.md".toList] "a".toList none ∧
    resolve_link_target [] ["y/a.md".toList] "y/a.md".toList none
        = some (candidateOf (stripWikiTarget "y/a.md".toList) none) :=
  ⟨(resolve_link_target_amended [] ["x/A.md".toList, "y/a.md".toList] "a".toList none).1,
    (resolve_link_target_amended [] ["y/a.md".toList] "y/a.md".toList none).2
      (by decide) (by decide)⟩

/-! ### C9 / C6: the body-link scanner (src/body_links.rs) -/

/-- The backtick character (inline-code delimiter). -/
def btick : Char := Char.ofNat 96

/-- UTF-16 code units of one character. -/
def charU16 (c : Char) : Nat := if c.toNat < 65536 then 1 else 2

/-- UTF-16 length of a character run (`utf16_col` sums these). -/
def utf16Len (s : Str) : Nat := (s.map charU16).sum

inductive LinkFormat where
  | wikilink
  | markdown
deriving DecidableEq

/-- A link found in the document body (src/body_links.rs, lines 12-30). -/
structure BodyLink where
  target : Str
  aliasTxt : Option Str
  anchor : Option Str
  format : LinkFormat
  start_line : Nat
  start_col : Nat
  end_line : Nat
  end_col : Nat
deriving DecidableEq

/-- Embeds `split_anchor` (src/body_links.rs, lines 278-286). -/
def split_anchor (s : Str) : Str × Option Str :=
  match splitFirstChar '#' s with
  | (t, some a) =>
    (trim t,
      let an := trim a
      if an = [] then none else some an)
  | (t, none) => (trim t, none)

/-- Scan for the closing `]]` of a wikilink (the inner loop at
src/body_links.rs, lines 110-115): the closer needs two brackets with the
second strictly before the end of line; on success returns the content and
the rest after the `]]`. -/
def splitAtDoubleRBracket : Str → Option (Str × Str)
  | [] => none
  | [_] => none
  | c1 :: c2 :: rest =>
    if c1 = ']' ∧ c2 = ']' then some ([], rest)
    else
      match splitAtDoubleRBracket (c2 :: rest) with
      | some pr => some (c1 :: pr.1, pr.2)
      | none => none

/-- Depth-counting scan for the `]` matching an already-consumed `[`
(src/body_links.rs, lines 158-168); `none` when the line ends first. -/
def bracketSplit : Str → Nat → Option (Str × Str)
  | [], _ => none
  | c :: rest, depth =>
    if c = ']' then
      if depth = 1 then some ([], rest)
      else
        match bracketSplit rest (depth - 1) with
        | some pr => some (c :: pr.1, pr.2)
        | none => none
    else
      match bracketSplit rest (if c = '[' then depth + 1 else depth) with
      | some pr => some (c :: pr.1, pr.2)
      | none => none

/-- Depth-counting scan of the parenthesised URL part
(src/body_links.rs, lines 180-191): returns the consumed run (including a
closing `)` when found) and the rest; at end of line it stops with whatever
was consumed, mirroring the source's `i` landing on `len`. -/
def parenScan : Str → Nat → Str × Str
  | [], _ => ([], [])
  | c :: rest, depth =>
    let d2 := if c = '(' then depth + 1 else if c = ')' then depth - 1 else depth
    if d2 = 0 then ([c], rest)
    else
      let pr := parenScan rest d2
      (c :: pr.1, pr.2)

/-- One pass of `parse_line_links` (src/body_links.rs, lines 85-275) from
the current position to the end of the line.  `pre16` is the UTF-16 column
of the position, `prevBang` records whether the previous character was `!`
(the embed/image test reads `chars[i-1]`), and the fuel — one unit per loop
iteration, each of which consumes at least one character — makes the
recursion structural. -/
def pll (lineIdx : Nat) : Nat → Str → Nat → Bool → List BodyLink
  | 0, _, _, _ => []
  | _ + 1, [], _, _ => []
  | fuel + 1, c :: rest, pre16, prevBang =>
    if c = btick then
      let taken := rest.takeWhile (fun x => ¬ x = btick)
      let rest2 := rest.dropWhile (fun x => ¬ x = btick)
      match rest2 with
      | [] => pll lineIdx fuel [] (pre16 + 1 + utf16Len taken) false
      | _ :: r => pll lineIdx fuel r (pre16 + 1 + utf16Len taken + 1) false
    else if c = '[' ∧ rest.head? = some '[' then
      let isEmbed := prevBang
      let linkStart := if isEmbed then pre16 - 1 else pre16
      match splitAtDoubleRBracket (rest.drop 1) with
      | none => []
      | some pr =>
        let content := pr.1
        let nextPre := pre16 + 2 + utf16Len content + 2
        let next := pll lineIdx fuel pr.2 nextPre false
        if isEmbed then next
        else if content = [] then next
        else
          let pieces := splitFirstChar '|' content
          let aliasVal := pieces.2.map (fun x => trim x)
          let ta := split_anchor (trim pieces.1)
          if ta.1 = [] then next
          else
            { target := ta.1, aliasTxt := aliasVal, anchor := ta.2,
              format := LinkFormat.wikilink, start_line := lineIdx,
              start_col := linkStart, end_line := lineIdx, end_col := nextPre } :: next
    else if c = '[' then
      let isImage := prevBang
      let linkStart := if isImage then pre16 - 1 else pre16
      match bracketSplit rest 1 with
      | none => []
      | some br =>
        let interior := br.1
        match br.2 with
        | '(' :: rest3 =>
          let ps := parenScan rest3 1
          let nextPre := pre16 + 2 + utf16Len interior + 1 + utf16Len ps.1
          let next := pll lineIdx fuel ps.2 nextPre false
          if isImage then next
          else
            let path := trim ps.1.dropLast
            if path = [] ∨ "http://".toList.isPrefixOf path
                ∨ "https://".toList.isPrefixOf path then next
            else
              let ta := split_anchor path
              let aliasVal :=
                let s := trim interior
                if s = [] then none else some s
              if ta.1 = [] then next
              else
                { target := ta.1, aliasTxt := aliasVal, anchor := ta.2,
                  format := LinkFormat.markdown, start_line := lineIdx,
                  start_col := linkStart, end_line := lineIdx, end_col := nextPre } :: next
        | _ => pll lineIdx fuel br.2 (pre16 + 2 + utf16Len interior) false
    else
      pll lineIdx fuel rest (pre16 + charU16 c) (c == '!')

/-- Embeds `parse_line_links` for one line. -/
def parse_line_links (lineIdx : Nat) (line : Str) : List BodyLink :=
  pll lineIdx (line.length + 1) line 0 false

/-- Fence-tracking loop of `find_body_links` (src/body_links.rs, 37-55). -/
def fblGo : List Str → Nat → Bool → List BodyLink
  | [], _, _ => []
  | l :: rest, idx, fenced =>
    if ("```".toList.isPrefixOf (trimStart l) || "~~~".toList.isPrefixOf (trimStart l)) then
      fblGo rest (idx + 1) (!fenced)
    else if fenced then fblGo rest (idx + 1) fenced
    else parse_line_links idx l ++ fblGo rest (idx + 1) fenced

/-- Embeds `find_body_links` (src/body_links.rs, lines 37-55). -/
def find_body_links (text : Str) : List BodyLink :=
  fblGo (rustLines text) 0 false

example :
    find_body_links "See [[target]] here.".toList
      = [⟨"target".toList, none, none, LinkFormat.wikilink, 0, 4, 0, 14⟩] := by decide
example :
    find_body_links "See [[target|display name]] here.".toList
      = [⟨"target".toList, some "display name".toList, none,
          LinkFormat.wikilink, 0, 4, 0, 27⟩] := by decide
example :
    find_body_links "See [text](path.md#heading) here.".toList
      = [⟨"path.md".toList, some "text".toList, some "heading".toList,
          LinkFormat.markdown, 0, 4, 0, 27⟩] := by decide
example : find_body_links "![[image.png]]".toList = [] := by decide
example : find_body_links "![alt text](image.png)".toList = [] := by decide
example : find_body_links "[Google](https://google.com)".toList = [] := by decide
example :
    (find_body_links "See `[[not a link]]` and [[real]].".toList).map (fun l => l.target)
      = ["real".toList] := by decide
example :
    (find_body_links "[[a]] and [[b]] and [c](d.md)".toList).map (fun l => l.target)
      = ["a".toList, "b".toList, "d.md".toList] := by decide

/-- C9: the two end-to-end scanner scenarios.  `See [[target]] here.` yields
exactly the one wikilink record with UTF-16 columns 4-14; the fenced input
yields exactly one link, `outside` — the `[[inside]]` on a fenced line is
never emitted. -/
theorem find_body_links_scenarios :
    find_body_links "See [[target]] here.".toList
      = [⟨"target".toList, none, none, LinkFormat.wikilink, 0, 4, 0, 14⟩] ∧
    find_body_links "before\n```\n[[inside]]\n```\nafter [[outside]]".toList
      = [⟨"outside".toList, none, none, LinkFormat.wikilink, 4, 6, 4, 17⟩] := by
  exact ⟨by decide, by decide⟩

/-! ### C6: rename replacement round trip -/

/-- Reference formats distinguished by the rename engine
(src/references.rs, lines 118-123). -/
inductive RefFormat where
  | wikilink
  | markdown
  | frontmatterValue
deriving DecidableEq

/-- The parts of a found reference used by `replacement_for_ref`
(src/references.rs, lines 110-116); `aliasTxt` is the source's `alias`,
a reserved word here. -/
structure FoundRef where
  format : RefFormat
  aliasTxt : Option Str
  anchor : Option Str
deriving DecidableEq

/-- Embeds `replacement_for_ref` (src/references.rs, lines 237-262). -/
def replacement_for_ref (found : FoundRef) (new_target : Str) : Str :=
  match found.format with
  | .wikilink =>
    let s := new_target ++ (match found.anchor with | some x => '#' :: x | none => [])
    (match found.aliasTxt with
      | some al => "[[".toList ++ s ++ '|' :: al ++ "]]".toList
      | none => "[[".toList ++ s ++ "]]".toList)
  | .markdown =>
    let path := new_target ++ (match found.anchor with | some x => '#' :: x | none => [])
    let label := found.aliasTxt.getD "link".toList
    '[' :: label ++ ']' :: '(' :: path ++ [')']
  | .frontmatterValue => new_target

/-- How `find_references_in_text` (src/references.rs, lines 178-199) carries
a scanned body link into a `FoundRef`. -/
def foundRefOfLink (l : BodyLink) : FoundRef :=
  ⟨match l.format with
    | .wikilink => RefFormat.wikilink
    | .markdown => RefFormat.markdown,
    l.aliasTxt, l.anchor⟩

/-- C6 counterexample: the body link scanned from `[[ a]]` has target `a`
and spans the whole line, but the rename replacement with that same target
produces the normalized `[[a]]`, not the original text. -/
theorem rename_roundtrip_cex :
    find_body_links "[[ a]]".toList
      = [⟨"a".toList, none, none, LinkFormat.wikilink, 0, 0, 0, 6⟩] ∧
    replacement_for_ref
        (foundRefOfLink ⟨"a".toList, none, none, LinkFormat.wikilink, 0, 0, 0, 6⟩)
        "a".toList
      = "[[a]]".toList ∧
    ("[[a]]".toList : Str) ≠ "[[ a]]".toList := by
  exact ⟨by decide, by decide, by decide⟩

theorem splitChar_not_mem (c : Char) (s : Str) (h : c ∉ s) : splitChar c s = [s] := by
  induction s with
  | nil => rfl
  | cons x xs ih =>
    have hx : ¬ x = c := fun he => h (by simp [he])
    simp only [splitChar, if_neg hx, ih (fun hm => h (List.mem_cons_of_mem x hm))]

theorem rustLines_single (s : Str) (hne : s ≠ []) (hnl : '\n' ∉ s)
    (hcr : s.getLast? ≠ some '\r') : rustLines s = [s] := by
  unfold rustLines
  have hln : s.getLast? ≠ some '\n' := fun hc => hnl (List.mem_of_getLast?_eq_some hc)
  rw [if_neg hne, splitChar_not_mem '\n' s hnl]
  simp [hln, stripCr, hcr]

theorem isPrefixOf_cons_ne (c d : Char) (ps s : Str) (h : ¬ c = d) :
    (c :: ps).isPrefixOf (d :: s) = false := by
  cases hb : (c :: ps).isPrefixOf (d :: s)
  · rfl
  · rw [ List.isPrefixOf_iff_prefix] at hb
    rcases hb with ⟨w, hw⟩
    simp at hw
    exact absurd hw.1 h

theorem utf16Len_append (x y : Str) : utf16Len (x ++ y) = utf16Len x + utf16Len y := by
  simp [utf16Len]

theorem splitAtDoubleRBracket_append (content rest : Str) (h : ']' ∉ content) :
    splitAtDoubleRBracket (content ++ ']' :: ']' :: rest) = some (content, rest) := by
  induction content with
  | nil => simp [splitAtDoubleRBracket]
  | cons c cs ih =>
    have hc : ¬ c = ']' := fun he => h (by simp [he])
    have hcs : ']' ∉ cs := fun hm => h (List.mem_cons_of_mem _ hm)
    cases cs with
    | nil => simp [splitAtDoubleRBracket, hc]
    | cons c2 cs2 =>
      have ih' := ih hcs
      simp only [List.cons_append] at ih' ⊢
      simp [splitAtDoubleRBracket, hc, ih']

theorem trim_append_mid (x y : Str) (c : Char) (hx : trim x = x) (hx0 : x ≠ [])
    (hy : trim y = y) (hy0 : y ≠ []) : trim (x ++ c :: y) = x ++ c :: y := by
  refine trim_eq_self_of_ends _ ?_ ?_
  · intro d hd
    cases x with
    | nil => exact absurd rfl hx0
    | cons a xs =>
      simp only [List.cons_append, List.head?_cons, Option.some.injEq] at hd
      subst hd
      exact head_not_ws_of_trim _ hx _ rfl
  · intro d hd
    rw [show (x ++ c :: y : Str) = (x ++ [c]) ++ y by simp, List.getLast?_append] at hd
    have hyl : y.getLast? = some (y.getLast hy0) := List.getLast?_eq_getLast y hy0
    rw [hyl] at hd
    simp only [Option.or_some, Option.some.injEq] at hd
    subst hd
    exact getLast_not_ws_of_trim _ hy _ hyl

theorem pll_nil (li fuel pre : Nat) (b : Bool) : pll li fuel [] pre b = [] := by
  cases fuel <;> rfl

theorem not_mem_append {c : Char} {x y : Str} (hx : c ∉ x) (hy : c ∉ y) : c ∉ x ++ y :=
  fun hm => Or.elim (List.mem_append.mp hm) hx hy

theorem not_mem_cons {c d : Char} {y : Str} (hcd : c ≠ d) (hy : c ∉ y) : c ∉ d :: y :=
  fun hm => Or.elim (List.mem_cons.mp hm) hcd hy

/-- C6 (amended): for a body link written in canonical wikilink form
`[[target#anchor|alias]]` — nonempty, whitespace-trimmed parts — the scanner
yields exactly that one link record, and the rename replacement rebuilds
`[[new#anchor|alias]]` for any new target; with the new target equal to the
link's own target this reproduces the original text.  (Non-canonical
spacing such as `[[ a]]` is normalized instead, see the counterexample.) -/
theorem rename_wikilink_roundtrip (t h a : Str)
    (ht : trim t = t) (hh : trim h = h) (ha : trim a = a)
    (ht0 : t ≠ []) (hh0 : h ≠ [])
    (htb : ']' ∉ t) (hhb : ']' ∉ h) (hab : ']' ∉ a)
    (htp : '|' ∉ t) (hhp : '|' ∉ h) (hth : '#' ∉ t)
    (htn : '\n' ∉ t) (hhn : '\n' ∉ h) (han : '\n' ∉ a) :
    find_body_links ("[[".toList ++ t ++ '#' :: h ++ '|' :: a ++ "]]".toList)
      = [⟨t, some a, some h, LinkFormat.wikilink, 0, 0, 0,
          utf16Len ("[[".toList ++ t ++ '#' :: h ++ '|' :: a ++ "]]".toList)⟩] ∧
    (∀ nt : Str,
      replacement_for_ref
          (foundRefOfLink ⟨t, some a, some h, LinkFormat.wikilink, 0, 0, 0,
            utf16Len ("[[".toList ++ t ++ '#' :: h ++ '|' :: a ++ "]]".toList)⟩) nt
        = "[[".toList ++ nt ++ '#' :: h ++ '|' :: a ++ "]]".toList) := by
  have hcb : ']' ∉ t ++ '#' :: h ++ '|' :: a :=
    not_mem_append (not_mem_append htb (not_mem_cons (by decide) hhb))
      (not_mem_cons (by decide) hab)
  have hnl : '\n' ∉ "[[".toList ++ t ++ '#' :: h ++ '|' :: a ++ "]]".toList :=
    not_mem_append
      (not_mem_append
        (not_mem_append (not_mem_append (by decide) htn) (not_mem_cons (by decide) hhn))
        (not_mem_cons (by decide) han))
      (by decide)
  have hpipe : '|' ∉ t ++ '#' :: h :=
    not_mem_append htp (not_mem_cons (by decide) hhp)
  have hcne : t ++ '#' :: h ++ '|' :: a ≠ [] := by simp
  constructor
  · have hne : "[[".toList ++ t ++ '#' :: h ++ '|' :: a ++ "]]".toList ≠ [] := by simp
    have hlast :
        ("[[".toList ++ t ++ '#' :: h ++ '|' :: a ++ "]]".toList).getLast? = some ']' := by
      rw [show "[[".toList ++ t ++ '#' :: h ++ '|' :: a ++ "]]".toList
            = ("[[".toList ++ t ++ '#' :: h ++ '|' :: a ++ [']']) ++ [']'] by simp]
      exact List.getLast?_concat _
    have hcr :
        ("[[".toList ++ t ++ '#' :: h ++ '|' :: a ++ "]]".toList).getLast? ≠ some '\r' := by
      rw [hlast]
      decide
    rw [find_body_links, rustLines_single _ hne hnl hcr]
    have hshape : "[[".toList ++ t ++ '#' :: h ++ '|' :: a ++ "]]".toList
        = '[' :: '[' :: ((t ++ '#' :: h ++ '|' :: a) ++ ']' :: ']' :: []) := by simp
    rw [hshape]
    have hfence1 :
        ("```".toList.isPrefixOf
          (trimStart ('[' :: '[' :: ((t ++ '#' :: h ++ '|' :: a) ++ ']' :: ']' :: []))))
          = false := by
      rw [trimStart_cons_not_ws _ _ (by decide),
        show "```".toList = btick :: "``".toList from by decide]
      exact isPrefixOf_cons_ne _ _ _ _ (by decide)
    have hfence2 :
        ("~~~".toList.isPrefixOf
          (trimStart ('[' :: '[' :: ((t ++ '#' :: h ++ '|' :: a) ++ ']' :: ']' :: []))))
          = false := by
      rw [trimStart_cons_not_ws _ _ (by decide),
        show "~~~".toList = '~' :: "~~".toList from by decide]
      exact isPrefixOf_cons_ne _ _ _ _ (by decide)
    have hsd : splitAtDoubleRBracket (t ++ '#' :: (h ++ '|' :: (a ++ (']' :: ']' :: []))))
        = some (t ++ '#' :: (h ++ '|' :: a), []) := by
      simpa using splitAtDoubleRBracket_append (t ++ '#' :: h ++ '|' :: a) [] hcb
    have hsp : splitFirstChar '|' (t ++ '#' :: (h ++ '|' :: a))
        = (t ++ '#' :: h, some a) := by
      have := splitFirstChar_append '|' (t ++ '#' :: h) a hpipe
      simpa using this
    have htr : trim (t ++ '#' :: h) = t ++ '#' :: h := trim_append_mid t h '#' ht ht0 hh hh0
    have hsa : split_anchor (t ++ '#' :: h) = (t, some h) := by
      simp [split_anchor, splitFirstChar_append '#' t h hth, ht, hh, hh0]
    have hbt : ¬ ('[' : Char) = btick := by decide
    simp only [fblGo]
    rw [hfence1, hfence2]
    rw [if_neg (by simp : ¬ (((false : Bool) || false) = true))]
    rw [if_neg (by simp : ¬ ((false : Bool) = true))]
    rw [List.append_nil, parse_line_links]
    simp only [pll]
    simp [hbt, hsd, hsp, htr, hsa, ht, ha, hh0, ht0, pll_nil, utf16Len, charU16]
    omega
  · intro nt
    simp [replacement_for_ref, foundRefOfLink]

/-- Witness for the amended C6 theorem: the spec's own example
`[[old#sec|Label]]`, renamed to `notes/new` and renamed to its own target. -/
theorem rename_wikilink_roundtrip_witness :
    find_body_links
        ("[[".toList ++ "old".toList ++ '#' :: "sec".toList ++ '|' :: "Label".toList
          ++ "]]".toList)
      = [⟨"old".toList, some "Label".toList, some "sec".toList, LinkFormat.wikilink, 0, 0, 0,
          utf16Len ("[[".toList ++ "old".toList ++ '#' :: "sec".toList
            ++ '|' :: "Label".toList ++ "]]".toList)⟩] ∧
    replacement_for_ref
        (foundRefOfLink ⟨"old".toList, some "Label".toList, some "sec".toList,
          LinkFormat.wikilink, 0, 0, 0,
          utf16Len ("[[".toList ++ "old".toList ++ '#' :: "sec".toList
            ++ '|' :: "Label".toList ++ "]]".toList)⟩) "notes/new".toList
      = "[[".toList ++ "notes/new".toList ++ '#' :: "sec".toList ++ '|' :: "Label".toList
          ++ "]]".toList ∧
    replacement_for_ref
        (foundRefOfLink ⟨"old".toList, some "Label".toList, some "sec".toList,
          LinkFormat.wikilink, 0, 0, 0,
          utf16Len ("[[".toList ++ "old".toList ++ '#' :: "sec".toList
            ++ '|' :: "Label".toList ++ "]]".toList)⟩) "old".toList
      = "[[".toList ++ "old".toList ++ '#' :: "sec".toList ++ '|' :: "Label".toList
          ++ "]]".toList :=
  ⟨(rename_wikilink_roundtrip "old".toList "sec".toList "Label".toList
      (by decide) (by decide) (by decide) (by decide) (by decide) (by decide) (by decide)
      (by decide) (by decide) (by decide) (by decide) (by decide) (by decide) (by decide)).1,
    (rename_wikilink_roundtrip "old".toList "sec".toList "Label".toList
      (by decide) (by decide) (by decide) (by decide) (by decide) (by decide) (by decide)
      (by decide) (by decide) (by decide) (by decide) (by decide) (by decide) (by decide)).2
      "notes/new".toList,
    (rename_wikilink_roundtrip "old".toList "sec".toList "Label".toList
      (by decide) (by decide) (by decide) (by decide) (by decide) (by decide) (by decide)
      (by decide) (by decide) (by decide) (by decide) (by decide) (by decide) (by decide)).2
      "old".toList⟩

end MdZ
